import Mathlib

/-!
Verification of the aggregation/reporting core of the pilot statistics
dashboard (src/app.py) against its natural-language specification.

The two input collections are embedded as lists of records.  Timestamps are
embedded as natural numbers counting seconds since the epoch (UTC); taking
the calendar date of a timestamp is embedded as integer division by 86400
(the number of seconds in a day), so a "date" is a day number.  Pandas NaN /
NaT / None cells are embedded as Option values.  Character strings that the
source slices and splits are embedded as lists of characters.
-/

namespace PilotStats

/-- Seconds in one day; a date (as produced by a UTC timestamp's date
component) is embedded as the day number of the timestamp. -/
def secPerDay : Nat := 86400

/-- Day number of a UTC timestamp, embedding the date component used by the
source for last-login filtering and login-history display. -/
def dateOf (t : Nat) : Nat := t / secPerDay

/-- One element of a conversation's messages sequence: a role string
("system" / "user" / anything else is rendered as assistant) and content. -/
structure Message where
  role : String
  content : String
deriving DecidableEq, Repr

/-- One row of the user-stats collection (user_stats_df).  last_login is the
parsed timestamp; login_history entries are the results of attempting to
parse each raw entry with pd.to_datetime (none embeds a parse failure). -/
structure URow where
  user_id : String
  email : String
  user_role : String
  workshop_id : String
  company_name : String
  last_login : Nat
  login_history : List (Option Nat)
deriving DecidableEq, Repr

/-- One row of the conversations collection (user_conversations_df), with the
fields the specified computations read.  feedback is Option to embed a None
cell (the source guards with isinstance(x, list)). -/
structure CRow where
  chat_id : String
  user_id : String
  title : List Char
  created_at : Nat
  updated_at : Nat
  open_search : Bool
  tot_cost : ℚ
  feedback : Option (List Int)
  messages : List Message
deriving DecidableEq, Repr

/-! ## Joiner: left join of conversations with user metadata (app.py:53-57) -/

/-- One row of the merged frame: the conversation row together with the four
projected user-side columns, which are null (none) when user_id matched no
user record. -/
structure JRow where
  conv : CRow
  email : Option String
  user_role : Option String
  workshop_id : Option String
  company_name : Option String
deriving DecidableEq, Repr

/-- The user rows matching a given user_id (the right side of the merge). -/
def userMatches (users : List URow) (uid : String) : List URow :=
  users.filter (fun u => u.user_id == uid)

/-- pandas merge(how="left") on one left row: one output row per matching
right row, or a single row with null projected fields when there is none. -/
def joinRow (users : List URow) (c : CRow) : List JRow :=
  match userMatches users c.user_id with
  | [] => [⟨c, none, none, none, none⟩]
  | ms => ms.map (fun u => ⟨c, some u.email, some u.user_role, some u.workshop_id, some u.company_name⟩)

/-- user_conversations_df.merge(user_stats_df[...], on="user_id", how="left")
(app.py:53-57): left order preserved, unmatched rows kept with nulls. -/
def joinedRows (users : List URow) (convs : List CRow) : List JRow :=
  convs.flatMap (joinRow users)

/-! ## WorkshopCompanyMap (app.py:60-65) -/

/-- Keep the first occurrence of each distinct element (the semantics of
pandas drop_duplicates, keep="first"); seen accumulates prior elements. -/
def dedupAux {α : Type} [DecidableEq α] (seen : List α) : List α → List α
  | [] => []
  | x :: rest =>
    if x ∈ seen then dedupAux seen rest else x :: dedupAux (x :: seen) rest

/-- drop_duplicates with keep="first": first occurrence of each distinct
element, in input order. -/
def dedupF {α : Type} [DecidableEq α] (l : List α) : List α := dedupAux [] l

/-- Python dict assignment d[k] = v: overwrite in place when the key is
already present, else append the new pair (insertion order preserved). -/
def dictUpsert (d : List (String × String)) (p : String × String) : List (String × String) :=
  if d.any (fun q => q.1 == p.1) then
    d.map (fun q => if q.1 == p.1 then (q.1, p.2) else q)
  else d ++ [p]

/-- The keys of a dict embedded as an association list. -/
def dictKeys (d : List (String × String)) : List String := d.map (fun q => q.1)

/-- Dict lookup (keys are unique in a dict built by dictUpsert). -/
def mapLookup (d : List (String × String)) (k : String) : Option String :=
  (d.find? (fun q => q.1 == k)).map (fun q => q.2)

/-- The (workshop_id, company_name) column pair of a user row. -/
def wcPair (u : URow) : String × String := (u.workshop_id, u.company_name)

/-- workshop_company_map (app.py:60-65):
user_stats_df[["workshop_id","company_name"]].drop_duplicates()
.set_index("workshop_id")["company_name"].to_dict() — distinct
(workshop_id, company_name) rows in first-occurrence order, poured into a
dict keyed by workshop_id (a later duplicate key overwrites the value). -/
def workshop_company_map (users : List URow) : List (String × String) :=
  (dedupF (users.map wcPair)).foldl dictUpsert []

/-! ## Global stats (app.py:90-132) -/

/-- total_chats = len(user_conversations_df) (app.py:90). -/
def total_chats (convs : List CRow) : Nat := convs.length

/-- verified_answers = number of conversations with open_search == False
(app.py:103-105). -/
def verified_answers (convs : List CRow) : Nat :=
  (convs.filter (fun c => c.open_search == false)).length

/-- The metric string displayed for verified answers (app.py:106):
f"{verified_answers}/{total_chats}". -/
def verifiedDisplay (convs : List CRow) : String :=
  toString (verified_answers convs) ++ "/" ++ toString (total_chats convs)

/-- num_messages = len(messages) (app.py:116-118). -/
def num_messages (c : CRow) : Nat := c.messages.length

/-- engaged_chats: conversations whose messages sequence has length > 4
(app.py:109-111). -/
def engaged_chats (convs : List CRow) : List CRow :=
  convs.filter (fun c => decide (4 < c.messages.length))

/-- num_engaged_chats = len(engaged_chats) (app.py:112). -/
def num_engaged_chats (convs : List CRow) : Nat := (engaged_chats convs).length

/-- Mean of tot_cost (app.py:131): pandas mean is NaN on an empty column,
embedded as none; on non-empty input it is the exact rational mean. -/
def avg_cost_per_chat (convs : List CRow) : Option ℚ :=
  if convs.isEmpty then none
  else some ((convs.map (fun c => c.tot_cost)).sum / (convs.length : ℚ))

/-! ## Feedback analysis (app.py:153-240) -/

/-- feedback_sum (app.py:153-155): sum(x) if isinstance(x, list) else 0. -/
def feedback_sum (c : CRow) : Int :=
  match c.feedback with
  | some l => l.sum
  | none => 0

/-- The derived thumb classification (app.py:156-158). -/
inductive Thumb where
  | up
  | down
  | neutral
deriving DecidableEq, Repr

/-- thumb (app.py:156-158): "up" if feedback_sum > 0 else "down" if < 0 else
"neutral". -/
def thumb (c : CRow) : Thumb :=
  if 0 < feedback_sum c then .up else if feedback_sum c < 0 then .down else .neutral

/-- total_supported_requests = count of open_search == False (app.py:160-162). -/
def total_supported_requests (convs : List CRow) : Nat :=
  (convs.filter (fun c => c.open_search == false)).length

/-- total_unsupported_requests = count of open_search == True (app.py:163-165). -/
def total_unsupported_requests (convs : List CRow) : Nat :=
  (convs.filter (fun c => c.open_search == true)).length

/-- supported_positive (app.py:167-172). -/
def supported_positive (convs : List CRow) : Nat :=
  (convs.filter (fun c => c.open_search == false && thumb c == .up)).length

/-- supported_negative (app.py:173-178). -/
def supported_negative (convs : List CRow) : Nat :=
  (convs.filter (fun c => c.open_search == false && thumb c == .down)).length

/-- unsupported_positive (app.py:179-184). -/
def unsupported_positive (convs : List CRow) : Nat :=
  (convs.filter (fun c => c.open_search == true && thumb c == .up)).length

/-- unsupported_negative (app.py:185-190). -/
def unsupported_negative (convs : List CRow) : Nat :=
  (convs.filter (fun c => c.open_search == true && thumb c == .down)).length

/-- supported_positive percentage cell of the feedback matrix (app.py:192-196):
count / bucket total * 100 when the bucket is non-empty, else 0. -/
def supported_positive_pct (convs : List CRow) : ℚ :=
  if 0 < total_supported_requests convs then
    (supported_positive convs : ℚ) / (total_supported_requests convs : ℚ) * 100
  else 0

/-- supported_negative percentage cell (app.py:197-201). -/
def supported_negative_pct (convs : List CRow) : ℚ :=
  if 0 < total_supported_requests convs then
    (supported_negative convs : ℚ) / (total_supported_requests convs : ℚ) * 100
  else 0

/-- unsupported_positive percentage cell (app.py:202-206). -/
def unsupported_positive_pct (convs : List CRow) : ℚ :=
  if 0 < total_unsupported_requests convs then
    (unsupported_positive convs : ℚ) / (total_unsupported_requests convs : ℚ) * 100
  else 0

/-- unsupported_negative percentage cell (app.py:207-211). -/
def unsupported_negative_pct (convs : List CRow) : ℚ :=
  if 0 < total_unsupported_requests convs then
    (unsupported_negative convs : ℚ) / (total_unsupported_requests convs : ℚ) * 100
  else 0

/-- Per-bucket satisfaction rate for supported cars (app.py:229-235): written
only when positive + negative > 0, embedded as none when omitted. -/
def supported_satisfaction (convs : List CRow) : Option ℚ :=
  if 0 < supported_positive convs + supported_negative convs then
    some ((supported_positive convs : ℚ)
      / ((supported_positive convs + supported_negative convs : Nat) : ℚ) * 100)
  else none

/-- Per-bucket satisfaction rate for unsupported cars (app.py:236-240). -/
def unsupported_satisfaction (convs : List CRow) : Option ℚ :=
  if 0 < unsupported_positive convs + unsupported_negative convs then
    some ((unsupported_positive convs : ℚ)
      / ((unsupported_positive convs + unsupported_negative convs : Nat) : ℚ) * 100)
  else none

/-! ## Chat message display (app.py:530-536) -/

/-- Rendering of one non-system message in the chat detail view
(app.py:533-536). -/
def renderMsg (m : Message) : String :=
  if m.role == "user" then "**User:** " ++ m.content else "**Assistant:** " ++ m.content

/-- The displayed message list of a selected chat (app.py:530-536): the loop
skips system-role messages and renders the rest in order. -/
def displayedMessages (c : CRow) : List String :=
  c.messages.filterMap (fun m => if m.role == "system" then none else some (renderMsg m))

/-! ## Top-level empty-input guard (app.py:40, 539-541) -/

/-- The fields of the global-stats report that later claims read.  All are
computed only inside the non-empty branch of the guard. -/
structure GlobalStats where
  chats : Nat
  verified : String
  engaged : Nat
  avgCost : Option ℚ
deriving DecidableEq, Repr

/-- The rendered page: either the single top-level "No data available"
warning (app.py:539-541) or the computed report. -/
inductive Report where
  | noData : Report
  | stats : GlobalStats → Report
deriving DecidableEq, Repr

/-- The dashboard's top-level control flow (app.py:40): the whole metrics
block runs only when both frames are non-empty; otherwise a single no-data
state is shown and nothing is aggregated. -/
def dashboard (users : List URow) (convs : List CRow) : Report :=
  if users.isEmpty || convs.isEmpty then .noData
  else .stats ⟨total_chats convs, verifiedDisplay convs, num_engaged_chats convs,
    avg_cost_per_chat convs⟩

/-! ## Most active users (app.py:304-352) -/

/-- One row of the most-active-users table: the four grouping keys and the
conversation count. -/
structure TRow where
  user_id : String
  email : String
  user_role : String
  company_name : String
  count : Nat
deriving DecidableEq, Repr

/-- The groupby key of a joined row: pandas groupby drops a row whenever any
grouping key is NaN, which happens exactly when the left join produced null
projected fields. -/
def keyOf (j : JRow) : Option (String × String × String × String) :=
  match j.email with
  | none => none
  | some e =>
    match j.user_role with
    | none => none
    | some r =>
      match j.company_name with
      | none => none
      | some cn => some (j.conv.user_id, e, r, cn)

/-- groupby(["user_id","email","user_role","company_name"]).size()
(app.py:309-315 and 322-328): one row per distinct non-null key tuple with
the number of joined rows sharing it. -/
def user_chat_counts (jrows : List JRow) : List TRow :=
  (dedupF (jrows.filterMap keyOf)).map (fun k =>
    ⟨k.1, k.2.1, k.2.2.1, k.2.2.2,
      (jrows.filter (fun j => decide (keyOf j = some k))).length⟩)

/-- sort_values(by="number of chats", ascending=False). -/
def sortRows (rows : List TRow) : List TRow :=
  rows.insertionSort (fun a b => b.count ≤ a.count)

/-- pd.merge(user_chat_counts_intermediate, user_stats_df[["user_id",
"last_login"]], on="user_id", how="left") (app.py:330-335): each table row
paired with the last_login of every matching user record, or with NaT
(none) when there is none. -/
def chatCountsWithLogin (users : List URow) (convs : List CRow) : List (TRow × Option Nat) :=
  (user_chat_counts (joinedRows users convs)).flatMap (fun t =>
    match users.filter (fun u => u.user_id == t.user_id) with
    | [] => [(t, none)]
    | ms => ms.map (fun u => (t, some u.last_login)))

/-- The last-login filter (app.py:337-346): last_login >= midnight of the
start date and < midnight of the day after the end date; a NaT comparison is
False in pandas, so a row without last_login never passes. -/
def passLoginFilter (s e : Nat) (p : TRow × Option Nat) : Bool :=
  match p.2 with
  | some t => decide (s * secPerDay ≤ t) && decide (t < (e + 1) * secPerDay)
  | none => false

/-- user_chat_counts_display (app.py:304-352): on an invalid range
(start > end) an error is reported and the unfiltered grouped table is
rendered; otherwise the grouped table is merged with last_login and filtered
by the date range.  The Bool is the st.error validation report. -/
def user_chat_counts_display (users : List URow) (convs : List CRow) (s e : Nat) :
    Bool × List TRow :=
  if e < s then
    (true, sortRows (user_chat_counts (joinedRows users convs)))
  else
    (false, sortRows (((chatCountsWithLogin users convs).filter (passLoginFilter s e)).map
      (fun p => p.1)))

/-! ## Login history (app.py:389-424) -/

/-- The successfully parsed login timestamps, in input order: the source
appends to formatted_logins inside try and drops the entry on a parse
failure (except: continue), which the Option embedding renders as
filterMap. -/
def formatted_logins (history : List (Option Nat)) : List Nat :=
  history.filterMap (fun e => e)

/-- sorted(formatted_logins, key=timestamp, reverse=True) (app.py:409-411). -/
def sortedLogins (history : List (Option Nat)) : List Nat :=
  (formatted_logins history).insertionSort (fun a b => b ≤ a)

/-- "Total logins" (app.py:423): len(formatted_logins), the count after
dropping unparseable entries. -/
def totalLogins (history : List (Option Nat)) : Nat := (formatted_logins history).length

/-- "Recent login" (app.py:421): the date of formatted_logins[0] after the
descending sort. -/
def recentLoginDate (history : List (Option Nat)) : Option Nat :=
  (sortedLogins history).head?.map dateOf

/-- "First login" (app.py:420): the date of formatted_logins[-1] after the
descending sort. -/
def firstLoginDate (history : List (Option Nat)) : Option Nat :=
  ((sortedLogins history).getLast?).map dateOf

/-- Spec-side maximum of a list of timestamps (none on the empty list). -/
def listMax : List Nat → Option Nat
  | [] => none
  | x :: xs => some (xs.foldl Nat.max x)

/-- Spec-side minimum of a list of timestamps (none on the empty list). -/
def listMin : List Nat → Option Nat
  | [] => none
  | x :: xs => some (xs.foldl Nat.min x)

/-! ## Chat dropdown labels (app.py:444-456) -/

/-- The 6-character delimiter " (ID: " used by the dropdown label template. -/
def sepID : List Char := [' ', '(', 'I', 'D', ':', ' ']

/-- One chat dropdown label (app.py:444-447):
f"{updated_at:%Y-%m-%d %H:%M} - {title} (ID: {chat_id})", with the formatted
timestamp passed in as a character list. -/
def chat_option_label (dstr title chatId : List Char) : List Char :=
  dstr ++ [' ', '-', ' '] ++ title ++ sepID ++ chatId ++ [')']

/-- Python str.split(" (ID: "): scan left to right, break at each
non-overlapping occurrence of the separator.  The first pattern consumes one
occurrence of the separator; otherwise the head character is prepended to
the current piece. -/
def splitID : List Char → List (List Char)
  | [] => [[]]
  | ' ' :: '(' :: 'I' :: 'D' :: ':' :: ' ' :: rest => [] :: splitID rest
  | c :: rest =>
    match splitID rest with
    | [] => [[c]]
    | p :: ps => (c :: p) :: ps

/-- Whether " (ID: " occurs as a contiguous substring. -/
def hasSepID : List Char → Bool
  | [] => false
  | ' ' :: '(' :: 'I' :: 'D' :: ':' :: ' ' :: _ => true
  | _ :: rest => hasSepID rest

/-- selected_chat_id (app.py:450-456):
selected_chat_option.split(" (ID: ")[1][:-1].  Index [1] exists whenever the
label contains the delimiter, which every label built by chat_option_label
does; it is embedded with a default for totality. -/
def selected_chat_id (label : List Char) : List Char :=
  ((splitID label).getD 1 []).dropLast

/-! ## Spec-side definitions used to state the claims -/

/-- Spec-side verification flag: verified = NOT open_search. -/
def verifiedFlag (c : CRow) : Bool := !c.open_search

/-- Spec-side size of a verification bucket. -/
def bucketCount (convs : List CRow) (v : Bool) : Nat :=
  (convs.filter (fun c => verifiedFlag c == v)).length

/-- Spec-side count of one (verification bucket × thumb bucket) cell. -/
def cellCount (convs : List CRow) (v : Bool) (t : Thumb) : Nat :=
  (convs.filter (fun c => verifiedFlag c == v && thumb c == t)).length

/-! ## Sample records used by witnesses and counterexamples -/

/-- A three-message transcript with one system message. -/
def sampleMsgs : List Message := [⟨"system", "S"⟩, ⟨"user", "A"⟩, ⟨"assistant", "B"⟩]

/-- A verified conversation of user u1 with positive feedback. -/
def conv1 : CRow := ⟨"c1", "u1", "T1".toList, 10, 20, false, 2, some [1, 1], sampleMsgs⟩

/-- A verified conversation of user u1 with negative feedback. -/
def conv2 : CRow := ⟨"c2", "u1", "T2".toList, 10, 30, false, 4, some [-1], []⟩

/-- An unverified conversation of user u2 with empty feedback. -/
def conv3 : CRow := ⟨"c3", "u2", "T3".toList, 10, 40, true, 0, some [], []⟩

/-- A conversation owned by a user id that matches no user record. -/
def convGhost : CRow := ⟨"c9", "ghost", "T9".toList, 10, 50, true, 1, none, []⟩

/-- A user record for u1 (workshop w1, company A, last login on day 3). -/
def userA : URow :=
  ⟨"u1", "e1", "mechanic", "w1", "A", 3 * secPerDay + 5, [some secPerDay, none, some (2 * secPerDay)]⟩

/-- A user record for u2 (workshop w1, company B, last login on day 10). -/
def userB : URow := ⟨"u2", "e2", "boss", "w1", "B", 10 * secPerDay, []⟩

/-! ## General helper lemmas -/

/-- A Boolean predicate and its negation partition the length of a list. -/
theorem length_filter_add_length_filter_not {α : Type} (p : α → Bool) (l : List α) :
    (l.filter p).length + (l.filter (fun a => !p a)).length = l.length := by
  induction l with
  | nil => rfl
  | cons x xs ih =>
    cases h : p x <;> simp [List.filter_cons, h] <;> omega

/-! ## Claim C3: verified/unverified counts partition the total -/

/-- Claim C3: for every non-empty conversation collection, the number of
conversations with open_search = False plus the number with
open_search = True equals the total number of conversations, and the
verified-answers metric is rendered as the string "verified/total". -/
theorem C3_verified_unverified_partition (convs : List CRow) (_h : convs ≠ []) :
    verified_answers convs + total_unsupported_requests convs = total_chats convs ∧
    verifiedDisplay convs = toString (verified_answers convs) ++ "/" ++ toString (total_chats convs) := by
  refine ⟨?_, rfl⟩
  have hpart := length_filter_add_length_filter_not (fun c : CRow => c.open_search == false) convs
  have hcong : convs.filter (fun c => !(c.open_search == false))
      = convs.filter (fun c => c.open_search == true) := by
    apply List.filter_congr
    intro c _
    cases hc : c.open_search <;> simp [hc]
  unfold verified_answers total_unsupported_requests total_chats
  rw [← hcong]
  exact hpart

/-- Witness for C3 at a concrete one-element collection. -/
theorem C3_witness :
    verified_answers [conv1] + total_unsupported_requests [conv1] = total_chats [conv1] ∧
    verifiedDisplay [conv1]
      = toString (verified_answers [conv1]) ++ "/" ++ toString (total_chats [conv1]) :=
  C3_verified_unverified_partition [conv1] (List.cons_ne_nil _ _)

/-! ## Claim C4: the satisfaction matrix and per-bucket satisfaction rates -/

/-- The code-side supported bucket total equals the spec-side verified-bucket
count. -/
theorem total_supported_eq_bucket (convs : List CRow) :
    total_supported_requests convs = bucketCount convs true := by
  unfold total_supported_requests bucketCount
  apply congrArg List.length
  apply List.filter_congr
  intro c _
  cases hc : c.open_search <;> simp [verifiedFlag, hc]

/-- The code-side unsupported bucket total equals the spec-side
unverified-bucket count. -/
theorem total_unsupported_eq_bucket (convs : List CRow) :
    total_unsupported_requests convs = bucketCount convs false := by
  unfold total_unsupported_requests bucketCount
  apply congrArg List.length
  apply List.filter_congr
  intro c _
  cases hc : c.open_search <;> simp [verifiedFlag, hc]

/-- Each code-side matrix count equals the corresponding spec-side cell
count. -/
theorem cell_counts_eq (convs : List CRow) :
    supported_positive convs = cellCount convs true .up ∧
    supported_negative convs = cellCount convs true .down ∧
    unsupported_positive convs = cellCount convs false .up ∧
    unsupported_negative convs = cellCount convs false .down := by
  refine ⟨?_, ?_, ?_, ?_⟩ <;>
  · apply congrArg List.length
    apply List.filter_congr
    intro c _
    cases hc : c.open_search <;> simp [verifiedFlag, hc]

/-- Claim C4: each cell of the 2×2 satisfaction matrix is the cell count
divided by the verification-bucket total times 100, and 0 when that bucket
is empty; the per-bucket satisfaction rate is positive/(positive+negative)
× 100 and is omitted (none) exactly when positive+negative = 0. -/
theorem C4_satisfaction_matrix (convs : List CRow) :
    supported_positive_pct convs
      = (if bucketCount convs true = 0 then 0
         else (cellCount convs true .up : ℚ) / (bucketCount convs true : ℚ) * 100) ∧
    supported_negative_pct convs
      = (if bucketCount convs true = 0 then 0
         else (cellCount convs true .down : ℚ) / (bucketCount convs true : ℚ) * 100) ∧
    unsupported_positive_pct convs
      = (if bucketCount convs false = 0 then 0
         else (cellCount convs false .up : ℚ) / (bucketCount convs false : ℚ) * 100) ∧
    unsupported_negative_pct convs
      = (if bucketCount convs false = 0 then 0
         else (cellCount convs false .down : ℚ) / (bucketCount convs false : ℚ) * 100) ∧
    supported_satisfaction convs
      = (if cellCount convs true .up + cellCount convs true .down = 0 then none
         else some ((cellCount convs true .up : ℚ)
           / ((cellCount convs true .up + cellCount convs true .down : Nat) : ℚ) * 100)) ∧
    unsupported_satisfaction convs
      = (if cellCount convs false .up + cellCount convs false .down = 0 then none
         else some ((cellCount convs false .up : ℚ)
           / ((cellCount convs false .up + cellCount convs false .down : Nat) : ℚ) * 100)) := by
  obtain ⟨h1, h2, h3, h4⟩ := cell_counts_eq convs
  have hs := total_supported_eq_bucket convs
  have hu := total_unsupported_eq_bucket convs
  refine ⟨?_, ?_, ?_, ?_, ?_, ?_⟩
  · unfold supported_positive_pct
    rw [hs, h1]
    rcases Nat.eq_zero_or_pos (bucketCount convs true) with hz | hp
    · simp [hz]
    · simp [hp, Nat.pos_iff_ne_zero.mp hp]
  · unfold supported_negative_pct
    rw [hs, h2]
    rcases Nat.eq_zero_or_pos (bucketCount convs true) with hz | hp
    · simp [hz]
    · simp [hp, Nat.pos_iff_ne_zero.mp hp]
  · unfold unsupported_positive_pct
    rw [hu, h3]
    rcases Nat.eq_zero_or_pos (bucketCount convs false) with hz | hp
    · simp [hz]
    · simp [hp, Nat.pos_iff_ne_zero.mp hp]
  · unfold unsupported_negative_pct
    rw [hu, h4]
    rcases Nat.eq_zero_or_pos (bucketCount convs false) with hz | hp
    · simp [hz]
    · simp [hp, Nat.pos_iff_ne_zero.mp hp]
  · unfold supported_satisfaction
    rw [h1, h2]
    rcases Nat.eq_zero_or_pos (cellCount convs true .up + cellCount convs true .down) with hz | hp
    · simp [hz]
    · simp [hp, Nat.pos_iff_ne_zero.mp hp]
  · unfold unsupported_satisfaction
    rw [h3, h4]
    rcases Nat.eq_zero_or_pos (cellCount convs false .up + cellCount convs false .down) with hz | hp
    · simp [hz]
    · simp [hp, Nat.pos_iff_ne_zero.mp hp]

/-! ## Claim C6: behaviour on empty input -/

/-- Counterexample to claim C6 as stated: on empty input avg_cost_per_chat is
NaN (none), not zero, and the dashboard reports the single top-level no-data
state rather than per-metric zeros. -/
theorem C6_counterexample :
    avg_cost_per_chat [] ≠ some 0 ∧ dashboard [] [] = Report.noData := by
  refine ⟨?_, rfl⟩
  simp [avg_cost_per_chat]

/-- Claim C6 (amended): aggregations are never evaluated over an empty
collection — the dashboard short-circuits to the single no-data state
exactly when either collection is empty (so nothing raises); the mean of
tot_cost is undefined (NaN, embedded none) on empty input, not zero, and is
the exact mean on non-empty input. -/
theorem C6_empty_input_guard (users : List URow) (convs : List CRow) :
    (dashboard users convs = Report.noData ↔ users = [] ∨ convs = []) ∧
    avg_cost_per_chat [] = none ∧
    (∀ c cs, avg_cost_per_chat (c :: cs)
      = some ((((c :: cs).map (fun x => x.tot_cost)).sum) / (((c :: cs).length : Nat) : ℚ))) := by
  refine ⟨?_, rfl, fun c cs => by simp [avg_cost_per_chat]⟩
  unfold dashboard
  rcases users with _ | ⟨u, us⟩ <;> rcases convs with _ | ⟨c, cs⟩ <;>
    simp [List.isEmpty]

/-! ## Claim C7: system messages counted in metrics, excluded from display -/

/-- Claim C7: num_messages is the length of the full messages sequence
including system-role messages (a chat is engaged iff that length exceeds
4), while the displayed message list of a selected chat renders exactly the
non-system messages in their original order. -/
theorem C7_system_messages (c : CRow) (convs : List CRow) :
    num_messages c = c.messages.length ∧
    num_messages c
      = (c.messages.filter (fun m => m.role == "system")).length
        + (c.messages.filter (fun m => !(m.role == "system"))).length ∧
    (c ∈ engaged_chats convs ↔ c ∈ convs ∧ 4 < num_messages c) ∧
    displayedMessages c
      = (c.messages.filter (fun m => !(m.role == "system"))).map renderMsg := by
  refine ⟨rfl, ?_, ?_, ?_⟩
  · have := length_filter_add_length_filter_not (fun m : Message => m.role == "system") c.messages
    unfold num_messages
    omega
  · unfold engaged_chats num_messages
    simp [List.mem_filter]
  · unfold displayedMessages
    induction c.messages with
    | nil => rfl
    | cons m ms ih =>
      by_cases hm : m.role = "system" <;>
        simp [List.filterMap_cons, List.filter_cons, hm] <;> simpa using ih

/-! ## Claim C2: the Joiner is a true left join -/

/-- A user_id present in no user record matches nothing. -/
theorem userMatches_eq_nil {users : List URow} {k : String}
    (h : k ∉ users.map (fun u => u.user_id)) : userMatches users k = [] := by
  unfold userMatches
  rw [List.filter_eq_nil_iff]
  intro u hu hk
  exact h (List.mem_map.mpr ⟨u, hu, by simpa using hk⟩)

/-- With unique user identifiers, a key matches at most one user record. -/
theorem userMatches_nil_or_singleton (users : List URow)
    (h : (users.map (fun u => u.user_id)).Nodup) (k : String) :
    userMatches users k = [] ∨ ∃ u, userMatches users k = [u] := by
  induction users with
  | nil => exact Or.inl rfl
  | cons u us ih =>
    rw [List.map_cons, List.nodup_cons] at h
    unfold userMatches at *
    rw [List.filter_cons]
    by_cases hk : u.user_id = k
    · have hrest : us.filter (fun v => v.user_id == k) = [] := by
        rw [List.filter_eq_nil_iff]
        intro v hv hvk
        exact h.1 (hk ▸ (by simpa using hvk.symm) ▸ List.mem_map_of_mem (fun w => w.user_id) hv)
      simp [hk, hrest]
    · simpa [hk] using ih h.2

/-- With unique user identifiers, each left row produces exactly one joined
row carrying that conversation. -/
theorem joinRow_conv (users : List URow)
    (h : (users.map (fun u => u.user_id)).Nodup) (c : CRow) :
    (joinRow users c).map (fun j => j.conv) = [c] := by
  unfold joinRow
  rcases userMatches_nil_or_singleton users h c.user_id with hnil | ⟨u, hu⟩
  · rw [hnil]
    rfl
  · rw [hu]
    rfl

/-- Every row produced by joinRow carries the left conversation row. -/
theorem joinRow_conv_mem {users : List URow} {c : CRow} {j : JRow}
    (hj : j ∈ joinRow users c) : j.conv = c := by
  unfold joinRow at hj
  rcases hm : userMatches users c.user_id with _ | ⟨u, us⟩
  · rw [hm] at hj
    simp at hj
    rw [hj]
  · rw [hm] at hj
    rcases List.mem_map.mp hj with ⟨v, _, hv⟩
    rw [← hv]

/-- Claim C2: the join of conversations with user metadata is a left join on
user_id — with unique user identifiers it has exactly as many rows as the
conversation collection, carrying the conversations in their original
order, and a conversation whose user_id matches no user record keeps its
row with null email, user_role, workshop_id and company_name. -/
theorem C2_left_join (users : List URow) (convs : List CRow)
    (h : (users.map (fun u => u.user_id)).Nodup) :
    (joinedRows users convs).length = convs.length ∧
    (joinedRows users convs).map (fun j => j.conv) = convs ∧
    (∀ j ∈ joinedRows users convs, j.conv.user_id ∉ users.map (fun u => u.user_id) →
      j.email = none ∧ j.user_role = none ∧ j.workshop_id = none ∧ j.company_name = none) := by
  have hmap : (joinedRows users convs).map (fun j => j.conv) = convs := by
    induction convs with
    | nil => rfl
    | cons c cs ih =>
      unfold joinedRows at *
      rw [List.flatMap_cons, List.map_append, ih, joinRow_conv users h c]
      rfl
  refine ⟨?_, hmap, ?_⟩
  · conv_rhs => rw [← hmap]
    rw [List.length_map]
  intro j hj hout
  rcases List.mem_flatMap.mp hj with ⟨c, _, hjc⟩
  have hc : j.conv = c := joinRow_conv_mem hjc
  have hnil : userMatches users c.user_id = [] := userMatches_eq_nil (hc ▸ hout)
  unfold joinRow at hjc
  rw [hnil] at hjc
  simp at hjc
  rw [hjc]
  exact ⟨rfl, rfl, rfl, rfl⟩

/-- Witness for C2 on a concrete pair of collections containing an unmatched
conversation. -/
theorem C2_witness :
    (joinedRows [userA, userB] [conv1, convGhost]).length = [conv1, convGhost].length ∧
    (joinedRows [userA, userB] [conv1, convGhost]).map (fun j => j.conv) = [conv1, convGhost] ∧
    (∀ j ∈ joinedRows [userA, userB] [conv1, convGhost],
      j.conv.user_id ∉ [userA, userB].map (fun u => u.user_id) →
      j.email = none ∧ j.user_role = none ∧ j.workshop_id = none ∧ j.company_name = none) :=
  C2_left_join [userA, userB] [conv1, convGhost] (by decide)

/-! ## Claim C9: unmatched conversations vanish from the most-active table -/

/-- Membership in the deduplication pass: an element survives iff it occurs
in the input and not in the seen accumulator. -/
theorem mem_dedupAux {α : Type} [DecidableEq α] (l : List α) :
    ∀ (seen : List α) (y : α), y ∈ dedupAux seen l ↔ y ∈ l ∧ y ∉ seen := by
  induction l with
  | nil => intro seen y; simp [dedupAux]
  | cons x rest ih =>
    intro seen y
    unfold dedupAux
    by_cases hx : x ∈ seen
    · rw [if_pos hx, ih]
      constructor
      · rintro ⟨hy, hns⟩
        exact ⟨List.mem_cons_of_mem _ hy, hns⟩
      · rintro ⟨hy, hns⟩
        rcases List.mem_cons.mp hy with rfl | hy
        · exact absurd hx hns
        · exact ⟨hy, hns⟩
    · rw [if_neg hx]
      constructor
      · intro hy
        rcases List.mem_cons.mp hy with rfl | hy
        · exact ⟨List.mem_cons_self _ _, hx⟩
        · rcases (ih _ _).mp hy with ⟨h1, h2⟩
          exact ⟨List.mem_cons_of_mem _ h1, fun hs => h2 (List.mem_cons_of_mem _ hs)⟩
      · rintro ⟨hy, hns⟩
        rcases List.mem_cons.mp hy with rfl | hy
        · exact List.mem_cons_self _ _
        · by_cases hyx : y = x
          · exact hyx ▸ List.mem_cons_self _ _
          · exact List.mem_cons_of_mem _ ((ih _ _).mpr ⟨hy, by
              intro hs
              rcases List.mem_cons.mp hs with h | h
              · exact hyx h
              · exact hns h⟩)

/-- dedupF preserves membership. -/
theorem mem_dedupF {α : Type} [DecidableEq α] (l : List α) (y : α) :
    y ∈ dedupF l ↔ y ∈ l := by
  unfold dedupF
  rw [mem_dedupAux]
  simp

/-- A non-none groupby key exposes the join fields of its row. -/
theorem keyOf_some {j : JRow} {k : String × String × String × String}
    (h : keyOf j = some k) :
    k.1 = j.conv.user_id ∧ j.email = some k.2.1 := by
  unfold keyOf at h
  rcases he : j.email with _ | e <;> rw [he] at h
  · exact absurd h (by simp)
  rcases hr : j.user_role with _ | r <;> rw [hr] at h
  · exact absurd h (by simp)
  rcases hc : j.company_name with _ | cn <;> rw [hc] at h
  · exact absurd h (by simp)
  have hk := Option.some.inj h
  rw [← hk]
  exact ⟨rfl, by simp [he]⟩

/-- Every table row's user_id is the user_id of some joined row with
non-null grouping keys. -/
theorem user_chat_counts_user_id (jrows : List JRow) (t : TRow)
    (ht : t ∈ user_chat_counts jrows) :
    ∃ j ∈ jrows, keyOf j ≠ none ∧ j.conv.user_id = t.user_id := by
  unfold user_chat_counts at ht
  rcases List.mem_map.mp ht with ⟨k, hk, hkt⟩
  rcases List.mem_filterMap.mp ((mem_dedupF _ _).mp hk) with ⟨j, hj, hkey⟩
  refine ⟨j, hj, by rw [hkey]; exact Option.some_ne_none k, ?_⟩
  have := (keyOf_some hkey).1
  rw [← hkt] at *
  exact this.symm

/-- The first component of every row of the with-login merge is a row of the
grouped table. -/
theorem chatCountsWithLogin_fst {users : List URow} {convs : List CRow}
    {p : TRow × Option Nat} (hp : p ∈ chatCountsWithLogin users convs) :
    p.1 ∈ user_chat_counts (joinedRows users convs) := by
  unfold chatCountsWithLogin at hp
  rcases List.mem_flatMap.mp hp with ⟨t, ht, hpt⟩
  rcases hm : users.filter (fun u => u.user_id == t.user_id) with _ | ⟨u, us⟩
  · rw [hm] at hpt
    simp at hpt
    rw [hpt]
    exact ht
  · rw [hm] at hpt
    rcases List.mem_map.mp hpt with ⟨v, _, hv⟩
    rw [← hv]
    exact ht

/-- Claim C9: a conversation whose user_id matches no user record is kept by
the left join (with null projected fields) but excluded from the
most-active-users table in both the date-filtered branch and the
invalid-range unfiltered fallback, because grouping drops rows with null
grouping keys. -/
theorem C9_unmatched_dropped_from_table (users : List URow) (convs : List CRow)
    (s e : Nat) (uid : String) (h : uid ∉ users.map (fun u => u.user_id)) :
    (∀ t ∈ (user_chat_counts_display users convs s e).2, t.user_id ≠ uid) ∧
    (∀ c ∈ convs, c.user_id = uid →
      (⟨c, none, none, none, none⟩ : JRow) ∈ joinedRows users convs) := by
  have hucc : ∀ t ∈ user_chat_counts (joinedRows users convs), t.user_id ≠ uid := by
    intro t ht
    rcases user_chat_counts_user_id _ t ht with ⟨j, hj, hkey, hjid⟩
    intro htid
    rcases List.mem_flatMap.mp hj with ⟨c, _, hjc⟩
    have hconv : j.conv = c := joinRow_conv_mem hjc
    have hcid : c.user_id = uid := by rw [← hconv, hjid, htid]
    have hnil : userMatches users c.user_id = [] := userMatches_eq_nil (hcid ▸ h)
    unfold joinRow at hjc
    rw [hnil] at hjc
    simp at hjc
    apply hkey
    rw [hjc]
    rfl
  constructor
  · intro t ht
    unfold user_chat_counts_display at ht
    by_cases hrange : e < s
    · rw [if_pos hrange] at ht
      have : t ∈ user_chat_counts (joinedRows users convs) :=
        (List.perm_insertionSort _ _).mem_iff.mp ht
      exact hucc t this
    · rw [if_neg hrange] at ht
      have ht2 := (List.perm_insertionSort _ _).mem_iff.mp ht
      rcases List.mem_map.mp ht2 with ⟨p, hp, hpt⟩
      have := chatCountsWithLogin_fst (List.mem_of_mem_filter hp)
      rw [hpt] at this
      exact hucc t this
  · intro c hc hcid
    unfold joinedRows
    apply List.mem_flatMap.mpr
    refine ⟨c, hc, ?_⟩
    unfold joinRow
    rw [userMatches_eq_nil (hcid ▸ h)]
    exact List.mem_singleton.mpr rfl

/-- Witness for C9: the ghost conversation is kept by the join but absent
from the table. -/
theorem C9_witness :
    (∀ t ∈ (user_chat_counts_display [userA, userB] [conv1, convGhost] 0 0).2,
      t.user_id ≠ "ghost") ∧
    (∀ c ∈ [conv1, convGhost], c.user_id = "ghost" →
      (⟨c, none, none, none, none⟩ : JRow) ∈ joinedRows [userA, userB] [conv1, convGhost]) :=
  C9_unmatched_dropped_from_table [userA, userB] [conv1, convGhost] 0 0 "ghost" (by decide)

/-! ## Claim C1: the WorkshopCompanyMap -/

/-- Looking up the freshly upserted key yields the freshly assigned value. -/
theorem mapLookup_dictUpsert_self (d : List (String × String)) (p : String × String) :
    mapLookup (dictUpsert d p) p.1 = some p.2 := by
  unfold dictUpsert mapLookup
  by_cases hmem : d.any (fun q => q.1 == p.1)
  · rw [if_pos hmem]
    induction d with
    | nil => simp at hmem
    | cons q d ih =>
      by_cases hq : q.1 = p.1
      · simp [List.find?_cons, hq]
      · have hmem2 : d.any (fun r => r.1 == p.1) := by
          simpa [List.any_cons, hq] using hmem
        simpa [List.find?_cons, hq] using ih hmem2
  · rw [if_neg hmem]
    have hnone : d.find? (fun q => q.1 == p.1) = none := by
      rw [List.find?_eq_none]
      intro q hq hqp
      exact hmem (List.any_eq_true.mpr ⟨q, hq, hqp⟩)
    rw [List.find?_append, hnone]
    simp

/-- The in-place value update of an upsert leaves lookups of other keys
unchanged. -/
theorem lookup_map_update (d : List (String × String)) (p : String × String)
    (k : String) (h : k ≠ p.1) :
    ((d.map (fun q => if q.1 == p.1 then (q.1, p.2) else q)).find?
        (fun q => q.1 == k)).map (fun q => q.2)
      = (d.find? (fun q => q.1 == k)).map (fun q => q.2) := by
  induction d with
  | nil => rfl
  | cons q d ih =>
    rw [List.map_cons]
    have hkey : (if q.1 == p.1 then (q.1, p.2) else q).1 = q.1 := by
      by_cases hqp : (q.1 == p.1) = true <;> simp [hqp]
    by_cases hqk : (q.1 == k) = true
    · rw [@List.find?_cons_of_pos _ (fun r : String × String => r.1 == k) _ _
          (by show ((if q.1 == p.1 then (q.1, p.2) else q).1 == k) = true; rw [hkey]; exact hqk),
        @List.find?_cons_of_pos _ (fun r : String × String => r.1 == k) q d hqk]
      have hqp : ¬(q.1 == p.1) = true := by
        intro hh
        simp at hh hqk
        exact h (by rw [← hqk, hh])
      rw [if_neg hqp]
    · rw [@List.find?_cons_of_neg _ (fun r : String × String => r.1 == k) _ _
          (by show ¬((if q.1 == p.1 then (q.1, p.2) else q).1 == k) = true; rw [hkey]; exact hqk),
        @List.find?_cons_of_neg _ (fun r : String × String => r.1 == k) q d hqk]
      exact ih

/-- Upserting one key leaves lookups of other keys unchanged. -/
theorem mapLookup_dictUpsert_other (d : List (String × String)) (p : String × String)
    (k : String) (h : k ≠ p.1) : mapLookup (dictUpsert d p) k = mapLookup d k := by
  unfold dictUpsert mapLookup
  by_cases hmem : d.any (fun q => q.1 == p.1)
  · rw [if_pos hmem]
    exact lookup_map_update d p k h
  · rw [if_neg hmem, List.find?_append]
    have hsingle : List.find? (fun q => q.1 == k) [p] = none := by
      rw [List.find?_eq_none]
      intro x hx
      simp at hx
      rw [hx]
      simp
      exact fun hh => h hh.symm
    rw [hsingle, Option.or_none]

/-- Lookup after folding dictUpsert over a pair list: the last assignment to
a key wins, and absent keys fall back to the initial dict. -/
theorem mapLookup_foldl_dictUpsert (l : List (String × String)) :
    ∀ (d : List (String × String)) (k : String),
      mapLookup (l.foldl dictUpsert d) k
        = ((l.reverse.find? (fun q => q.1 == k)).map (fun q => q.2)).or (mapLookup d k) := by
  induction l with
  | nil => intro d k; simp
  | cons p rest ih =>
    intro d k
    rw [List.foldl_cons, ih, List.reverse_cons, List.find?_append]
    rcases hfind : rest.reverse.find? (fun q => q.1 == k) with _ | q
    · rw [hfind]
      by_cases hk : k = p.1
      · subst hk
        rw [mapLookup_dictUpsert_self, List.find?_cons_of_pos _ (by simp)]
        simp
      · rw [mapLookup_dictUpsert_other d p k hk,
          List.find?_cons_of_neg _ (by simp; exact fun hh => hk hh.symm)]
        simp
    · rw [hfind]
      rfl

/-- find? over a reversed list is getLast? of the filtered list. -/
theorem reverse_find?_eq_filter_getLast? {α : Type} (p : α → Bool) (l : List α) :
    l.reverse.find? p = (l.filter p).getLast? := by
  induction l with
  | nil => rfl
  | cons x xs ih =>
    rw [List.reverse_cons, List.find?_append, ih, List.filter_cons]
    by_cases hp : p x = true
    · rw [if_pos hp, @List.find?_cons_of_pos _ p x [] hp]
      rcases hfl : xs.filter p with _ | ⟨z, zs⟩
      · rfl
      · rw [List.getLast?_cons_cons]
        have hne : (z :: zs).getLast? ≠ none := by
          rcases List.eq_nil_or_concat (z :: zs) with habs | ⟨L, b, hcat⟩
          · simp at habs
          · rw [hcat, List.concat_eq_append, List.getLast?_concat]
            simp
        rcases hg : (z :: zs).getLast? with _ | g
        · exact absurd hg hne
        · rfl
    · rw [if_neg hp, @List.find?_cons_of_neg _ p x [] hp, List.find?_nil, Option.or_none]

/-- Deduplication commutes with filtering (the seen accumulator filtered the
same way), because equal elements agree on the predicate. -/
theorem filter_dedupAux {α : Type} [DecidableEq α] (q : α → Bool) (l : List α) :
    ∀ seen : List α, (dedupAux seen l).filter q = dedupAux (seen.filter q) (l.filter q) := by
  induction l with
  | nil => intro seen; rfl
  | cons x rest ih =>
    intro seen
    by_cases hx : x ∈ seen
    · have hL : dedupAux seen (x :: rest) = dedupAux seen rest := by
        simp only [dedupAux]
        rw [if_pos hx]
      rw [hL, ih seen, List.filter_cons]
      by_cases hq : q x = true
      · rw [if_pos hq]
        have hxf : x ∈ seen.filter q := List.mem_filter.mpr ⟨hx, hq⟩
        have hR : dedupAux (seen.filter q) (x :: rest.filter q)
            = dedupAux (seen.filter q) (rest.filter q) := by
          simp only [dedupAux]
          rw [if_pos hxf]
        rw [hR]
      · rw [if_neg hq]
    · have hL : dedupAux seen (x :: rest) = x :: dedupAux (x :: seen) rest := by
        simp only [dedupAux]
        rw [if_neg hx]
      rw [hL, List.filter_cons, List.filter_cons]
      by_cases hq : q x = true
      · rw [if_pos hq, if_pos hq, ih (x :: seen)]
        have hxf : x ∉ seen.filter q := fun hmem => hx (List.mem_filter.mp hmem).1
        have hR : dedupAux (seen.filter q) (x :: rest.filter q)
            = x :: dedupAux (x :: seen.filter q) (rest.filter q) := by
          simp only [dedupAux]
          rw [if_neg hxf]
        rw [hR, List.filter_cons, if_pos hq]
      · rw [if_neg hq, if_neg hq, ih (x :: seen)]
        rw [List.filter_cons, if_neg hq]

/-- Deduplicating pairs with one fixed first component is deduplicating the
second components. -/
theorem dedupAux_const_fst (w : String) (l : List String) :
    ∀ (seenP : List (String × String)) (seenS : List String),
      (∀ c, (w, c) ∈ seenP ↔ c ∈ seenS) →
      dedupAux seenP (l.map (fun c => (w, c)))
        = (dedupAux seenS l).map (fun c => (w, c)) := by
  induction l with
  | nil => intro seenP seenS _; rfl
  | cons c rest ih =>
    intro seenP seenS hinv
    rw [List.map_cons]
    unfold dedupAux
    by_cases hc : c ∈ seenS
    · rw [if_pos ((hinv c).mpr hc), if_pos hc]
      exact ih seenP seenS hinv
    · rw [if_neg (fun hmem => hc ((hinv c).mp hmem)), if_neg hc, List.map_cons]
      rw [ih ((w, c) :: seenP) (c :: seenS) (by
        intro c2
        constructor
        · intro hmem
          rcases List.mem_cons.mp hmem with heq | hmem2
          · exact List.mem_cons.mpr (Or.inl (by injection heq))
          · exact List.mem_cons.mpr (Or.inr ((hinv c2).mp hmem2))
        · intro hmem
          rcases List.mem_cons.mp hmem with heq | hmem2
          · exact heq ▸ List.mem_cons_self _ _
          · exact List.mem_cons.mpr (Or.inr ((hinv c2).mpr hmem2)))]

/-- Keys of an upsert: unchanged when the key was present, else the new key
is appended. -/
theorem dictKeys_dictUpsert (d : List (String × String)) (p : String × String) :
    dictKeys (dictUpsert d p)
      = if p.1 ∈ dictKeys d then dictKeys d else dictKeys d ++ [p.1] := by
  unfold dictUpsert dictKeys
  by_cases hmem : d.any (fun q => q.1 == p.1)
  · have hk : p.1 ∈ d.map (fun q => q.1) := by
      rcases List.any_eq_true.mp hmem with ⟨q, hq, hqp⟩
      exact List.mem_map.mpr ⟨q, hq, by simpa using (by simpa using hqp : q.1 = p.1)⟩
    rw [if_pos hmem, if_pos hk, List.map_map]
    apply List.map_congr_left
    intro q _
    by_cases hq : q.1 = p.1 <;> simp [hq]
  · have hk : p.1 ∉ d.map (fun q => q.1) := by
      intro hmem2
      rcases List.mem_map.mp hmem2 with ⟨q, hq, hqp⟩
      exact hmem (List.any_eq_true.mpr ⟨q, hq, by simpa using hqp⟩)
    rw [if_neg hmem, if_neg hk, List.map_append]
    rfl

/-- Folding dictUpsert keeps the key list duplicate-free and collects exactly
the keys of the input pairs. -/
theorem dictKeys_foldl_dictUpsert (l : List (String × String)) :
    ∀ d : List (String × String), (dictKeys d).Nodup →
      (dictKeys (l.foldl dictUpsert d)).Nodup ∧
      (∀ k, k ∈ dictKeys (l.foldl dictUpsert d) ↔ k ∈ dictKeys d ∨ k ∈ l.map (fun q => q.1)) := by
  induction l with
  | nil => intro d hd; exact ⟨hd, fun k => by simp⟩
  | cons p rest ih =>
    intro d hd
    rw [List.foldl_cons]
    have hnext : (dictKeys (dictUpsert d p)).Nodup := by
      rw [dictKeys_dictUpsert]
      by_cases hmem : p.1 ∈ dictKeys d
      · rw [if_pos hmem]; exact hd
      · rw [if_neg hmem]
        simpa [List.nodup_append] using ⟨hd, hmem⟩
    obtain ⟨h1, h2⟩ := ih (dictUpsert d p) hnext
    refine ⟨h1, fun k => ?_⟩
    rw [h2 k, dictKeys_dictUpsert]
    by_cases hmem : p.1 ∈ dictKeys d
    · rw [if_pos hmem]
      constructor
      · rintro (hk | hk)
        · exact Or.inl hk
        · rcases List.mem_map.mp hk with ⟨q, hq, hqk⟩
          exact Or.inr (List.mem_map.mpr ⟨q, List.mem_cons_of_mem _ hq, hqk⟩)
      · rintro (hk | hk)
        · exact Or.inl hk
        · rcases List.mem_map.mp hk with ⟨q, hq, hqk⟩
          rcases List.mem_cons.mp hq with rfl | hq2
          · exact Or.inl (hqk ▸ hmem)
          · exact Or.inr (List.mem_map.mpr ⟨q, hq2, hqk⟩)
    · rw [if_neg hmem]
      constructor
      · rintro (hk | hk)
        · rcases List.mem_append.mp hk with hk2 | hk2
          · exact Or.inl hk2
          · exact Or.inr (by
              simp at hk2
              simp [hk2])
        · rcases List.mem_map.mp hk with ⟨q, hq, hqk⟩
          exact Or.inr (List.mem_map.mpr ⟨q, List.mem_cons_of_mem _ hq, hqk⟩)
      · rintro (hk | hk)
        · exact Or.inl (List.mem_append.mpr (Or.inl hk))
        · rcases List.mem_map.mp hk with ⟨q, hq, hqk⟩
          rcases List.mem_cons.mp hq with rfl | hq2
          · exact Or.inl (List.mem_append.mpr (Or.inr (by simp [hqk])))
          · exact Or.inr (List.mem_map.mpr ⟨q, hq2, hqk⟩)

/-- The company names appearing with a given workshop_id, in input order. -/
def companiesOf (users : List URow) (w : String) : List String :=
  (users.filter (fun u => u.workshop_id == w)).map (fun u => u.company_name)

/-- The value stored for a workshop is the last element of the deduplicated
company list: among the distinct company names observed for that
workshop_id (ordered by first appearance), the last one wins. -/
theorem wcm_lookup_eq (users : List URow) (w : String) :
    mapLookup (workshop_company_map users) w = (dedupF (companiesOf users w)).getLast? := by
  unfold workshop_company_map
  rw [mapLookup_foldl_dictUpsert]
  have h0 : mapLookup [] w = none := rfl
  rw [h0, Option.or_none, reverse_find?_eq_filter_getLast?]
  have hC : (dedupF (users.map wcPair)).filter (fun q => q.1 == w)
      = dedupF ((users.map wcPair).filter (fun q => q.1 == w)) := by
    unfold dedupF
    rw [filter_dedupAux]
    rfl
  rw [hC, List.filter_map]
  have hcomp : users.filter ((fun q : String × String => q.1 == w) ∘ wcPair)
      = users.filter (fun u => u.workshop_id == w) := by
    apply List.filter_congr
    intro u _
    rfl
  rw [hcomp]
  have hmap : (users.filter (fun u => u.workshop_id == w)).map wcPair
      = ((users.filter (fun u => u.workshop_id == w)).map (fun u => u.company_name)).map
          (fun c => (w, c)) := by
    rw [List.map_map]
    apply List.map_congr_left
    intro u hu
    have hw := (List.mem_filter.mp hu).2
    simp at hw
    simp [wcPair, Function.comp, hw]
  rw [hmap]
  have hD : dedupF (((users.filter (fun u => u.workshop_id == w)).map
        (fun u => u.company_name)).map (fun c => (w, c)))
      = (dedupF ((users.filter (fun u => u.workshop_id == w)).map
          (fun u => u.company_name))).map (fun c => (w, c)) := by
    unfold dedupF
    exact dedupAux_const_fst w _ [] [] (by intro c; simp)
  rw [hD, List.getLast?_map]
  unfold companiesOf
  rcases hlast : (dedupF ((users.filter (fun u => u.workshop_id == w)).map
      (fun u => u.company_name))).getLast? with _ | c <;> rw [hlast] <;> rfl

/-- Counterexample to claim C1 as stated: two user records give workshop w1
the companies A then B; first-wins would store A, but the map stores B. -/
theorem C1_counterexample :
    mapLookup (workshop_company_map [userA, userB]) "w1" = some "B" ∧
    mapLookup (workshop_company_map [userA, userB]) "w1" ≠ some "A" := by
  constructor
  · decide
  · decide

/-- Claim C1 (amended): the WorkshopCompanyMap has exactly one entry per
distinct workshop_id present in the user collection, and the company name
stored for each workshop_id is the LAST distinct company name observed for
it in input order (last-wins over distinct values, not first-wins; the two
coincide when a workshop always appears with one company name). -/
theorem C1_workshop_company_map (users : List URow) (w : String) :
    (dictKeys (workshop_company_map users)).Nodup ∧
    (w ∈ dictKeys (workshop_company_map users) ↔ w ∈ users.map (fun u => u.workshop_id)) ∧
    mapLookup (workshop_company_map users) w = (dedupF (companiesOf users w)).getLast? := by
  obtain ⟨hnd, hmemkeys⟩ :=
    dictKeys_foldl_dictUpsert (dedupF (users.map wcPair)) [] List.nodup_nil
  refine ⟨hnd, ?_, wcm_lookup_eq users w⟩
  unfold workshop_company_map
  rw [hmemkeys w]
  constructor
  · rintro (hk | hk)
    · simp [dictKeys] at hk
    · rcases List.mem_map.mp hk with ⟨pq, hpq, hpk⟩
      have hmem : pq ∈ users.map wcPair := (mem_dedupF _ _).mp hpq
      rcases List.mem_map.mp hmem with ⟨u, hu, hupq⟩
      refine List.mem_map.mpr ⟨u, hu, ?_⟩
      rw [← hpk, ← hupq]
      rfl
  · intro hk
    rcases List.mem_map.mp hk with ⟨u, hu, huw⟩
    refine Or.inr (List.mem_map.mpr
      ⟨wcPair u, (mem_dedupF _ _).mpr (List.mem_map.mpr ⟨u, hu, rfl⟩), ?_⟩)
    rw [← huw]
    rfl

/-! ## Claim C5: the last-login date-range filter -/

/-- Claim C5: a row of the most-active-users table passes the last-login
filter iff start_date ≤ last_login's date ≤ end_date (so start = end selects
exactly the rows whose last_login date is that day); and when
start_date > end_date a validation error is reported and the unfiltered
table is produced instead. -/
theorem C5_date_range_filter (users : List URow) (convs : List CRow) (s e : Nat) :
    (e < s →
      (user_chat_counts_display users convs s e).1 = true ∧
      (∀ t, t ∈ (user_chat_counts_display users convs s e).2 ↔
        t ∈ user_chat_counts (joinedRows users convs))) ∧
    (∀ p ∈ chatCountsWithLogin users convs,
      (passLoginFilter s e p = true ↔
        ∃ v, p.2 = some v ∧ s ≤ dateOf v ∧ dateOf v ≤ e)) ∧
    (¬ e < s →
      (user_chat_counts_display users convs s e).1 = false ∧
      (∀ t, t ∈ (user_chat_counts_display users convs s e).2 ↔
        ∃ p ∈ chatCountsWithLogin users convs, passLoginFilter s e p = true ∧ p.1 = t)) := by
  have hD : 0 < secPerDay := by decide
  refine ⟨?_, ?_, ?_⟩
  · intro hrange
    unfold user_chat_counts_display
    rw [if_pos hrange]
    exact ⟨rfl, fun t => (List.perm_insertionSort _ _).mem_iff⟩
  · intro p _
    unfold passLoginFilter
    rcases hp2 : p.2 with _ | v
    · simp
    · rw [Bool.and_eq_true, decide_eq_true_iff, decide_eq_true_iff]
      constructor
      · rintro ⟨h1, h2⟩
        refine ⟨v, rfl, ?_, ?_⟩
        · exact (Nat.le_div_iff_mul_le hD).mpr h1
        · unfold dateOf
          rw [← Nat.lt_succ_iff]
          exact (Nat.div_lt_iff_lt_mul hD).mpr h2
      · rintro ⟨v2, hv2, h1, h2⟩
        have hv : v2 = v := (Option.some.inj hv2).symm
        subst hv
        constructor
        · exact (Nat.le_div_iff_mul_le hD).mp h1
        · unfold dateOf at h2
          rw [← Nat.lt_succ_iff] at h2
          exact (Nat.div_lt_iff_lt_mul hD).mp h2
  · intro hrange
    have hfst : (user_chat_counts_display users convs s e).1 = false := by
      unfold user_chat_counts_display
      rw [if_neg hrange]
    have hsnd : (user_chat_counts_display users convs s e).2
        = sortRows (((chatCountsWithLogin users convs).filter
            (passLoginFilter s e)).map (fun p => p.1)) := by
      unfold user_chat_counts_display
      rw [if_neg hrange]
    refine ⟨hfst, fun t => ?_⟩
    rw [hsnd]
    unfold sortRows
    rw [(List.perm_insertionSort _ _).mem_iff, List.mem_map]
    constructor
    · rintro ⟨p, hp, hpt⟩
      exact ⟨p, List.mem_of_mem_filter hp, List.of_mem_filter hp, hpt⟩
    · rintro ⟨p, hp, hpass, hpt⟩
      exact ⟨p, List.mem_filter.mpr ⟨hp, hpass⟩, hpt⟩

/-- Witness for C5: an invalid range (start 2, end 1) reports the error. -/
theorem C5_witness : (user_chat_counts_display [userA, userB] [conv1, conv3] 2 1).1 = true :=
  ((C5_date_range_filter [userA, userB] [conv1, conv3] 2 1).1 (by decide)).1

/-! ## Claim C8: login-history parsing, count, most recent and first login -/

/-- The running foldl maximum is an upper bound and is attained. -/
theorem foldl_max_spec (xs : List Nat) :
    ∀ a : Nat, (xs.foldl Nat.max a = a ∨ xs.foldl Nat.max a ∈ xs) ∧
      a ≤ xs.foldl Nat.max a ∧ ∀ x ∈ xs, x ≤ xs.foldl Nat.max a := by
  induction xs with
  | nil => intro a; exact ⟨Or.inl rfl, Nat.le_refl a, by simp⟩
  | cons x xs ih =>
    intro a
    rw [List.foldl_cons]
    obtain ⟨hmem, hle, hub⟩ := ih (Nat.max a x)
    refine ⟨?_, ?_, ?_⟩
    · rcases hmem with hm | hm
      · have hchoice : Nat.max a x = a ∨ Nat.max a x = x := by
          rcases Nat.le_total a x with h | h
          · exact Or.inr (Nat.max_eq_right h)
          · exact Or.inl (Nat.max_eq_left h)
        rcases hchoice with hc | hc
        · exact Or.inl (by rw [hm, hc])
        · exact Or.inr (by rw [hm, hc]; exact List.mem_cons_self _ _)
      · exact Or.inr (List.mem_cons_of_mem _ hm)
    · exact Nat.le_trans (Nat.le_max_left a x) hle
    · intro y hy
      rcases List.mem_cons.mp hy with rfl | hy2
      · exact Nat.le_trans (Nat.le_max_right a y) hle
      · exact hub y hy2

/-- The running foldl minimum is a lower bound and is attained. -/
theorem foldl_min_spec (xs : List Nat) :
    ∀ a : Nat, (xs.foldl Nat.min a = a ∨ xs.foldl Nat.min a ∈ xs) ∧
      xs.foldl Nat.min a ≤ a ∧ ∀ x ∈ xs, xs.foldl Nat.min a ≤ x := by
  induction xs with
  | nil => intro a; exact ⟨Or.inl rfl, Nat.le_refl a, by simp⟩
  | cons x xs ih =>
    intro a
    rw [List.foldl_cons]
    obtain ⟨hmem, hle, hlb⟩ := ih (Nat.min a x)
    refine ⟨?_, ?_, ?_⟩
    · rcases hmem with hm | hm
      · have hchoice : Nat.min a x = a ∨ Nat.min a x = x := by
          rcases Nat.le_total a x with h | h
          · exact Or.inl (Nat.min_eq_left h)
          · exact Or.inr (Nat.min_eq_right h)
        rcases hchoice with hc | hc
        · exact Or.inl (by rw [hm, hc])
        · exact Or.inr (by rw [hm, hc]; exact List.mem_cons_self _ _)
      · exact Or.inr (List.mem_cons_of_mem _ hm)
    · exact Nat.le_trans hle (Nat.min_le_left a x)
    · intro y hy
      rcases List.mem_cons.mp hy with rfl | hy2
      · exact Nat.le_trans hle (Nat.min_le_right a y)
      · exact hlb y hy2

/-- listMax returns an attained upper bound. -/
theorem listMax_spec {l : List Nat} {m : Nat} (h : listMax l = some m) :
    m ∈ l ∧ ∀ x ∈ l, x ≤ m := by
  rcases l with _ | ⟨x, xs⟩
  · exact absurd h (by simp [listMax])
  · have hm : m = xs.foldl Nat.max x := by
      unfold listMax at h
      exact (Option.some.inj h).symm
    obtain ⟨hmem, hle, hub⟩ := foldl_max_spec xs x
    subst hm
    refine ⟨?_, ?_⟩
    · rcases hmem with hm2 | hm2
      · rw [hm2]; exact List.mem_cons_self _ _
      · exact List.mem_cons_of_mem _ hm2
    · intro y hy
      rcases List.mem_cons.mp hy with rfl | hy2
      · exact hle
      · exact hub y hy2

/-- An attained upper bound is the listMax. -/
theorem listMax_eq_some {l : List Nat} {m : Nat} (hmem : m ∈ l) (hub : ∀ x ∈ l, x ≤ m) :
    listMax l = some m := by
  rcases l with _ | ⟨x, xs⟩
  · simp at hmem
  · have hspec := listMax_spec (l := x :: xs) (m := xs.foldl Nat.max x) rfl
    have h1 : xs.foldl Nat.max x ≤ m := hub _ hspec.1
    have h2 : m ≤ xs.foldl Nat.max x := hspec.2 m hmem
    show some (xs.foldl Nat.max x) = some m
    rw [Nat.le_antisymm h2 h1]

/-- An attained lower bound is the listMin. -/
theorem listMin_eq_some {l : List Nat} {m : Nat} (hmem : m ∈ l) (hlb : ∀ x ∈ l, m ≤ x) :
    listMin l = some m := by
  rcases l with _ | ⟨x, xs⟩
  · simp at hmem
  · obtain ⟨hmem2, hle, hlb2⟩ := foldl_min_spec xs x
    have hfmem : xs.foldl Nat.min x ∈ x :: xs := by
      rcases hmem2 with hm2 | hm2
      · rw [hm2]; exact List.mem_cons_self _ _
      · exact List.mem_cons_of_mem _ hm2
    have h1 : m ≤ xs.foldl Nat.min x := hlb _ hfmem
    have h2 : xs.foldl Nat.min x ≤ m := by
      rcases List.mem_cons.mp hmem with rfl | hmem3
      · exact hle
      · exact hlb2 m hmem3
    show some (xs.foldl Nat.min x) = some m
    rw [Nat.le_antisymm h2 h1]

/-- The head of a descending-sorted permutation of l is the maximum of l. -/
theorem head_sorted_desc_eq_listMax {L l : List Nat}
    (hsort : L.Sorted (fun a b => b ≤ a)) (hperm : L.Perm l) :
    L.head? = listMax l := by
  rcases L with _ | ⟨h, t⟩
  · have : l = [] := hperm.nil_eq.symm
    rw [this]
    rfl
  · rw [List.head?_cons]
    symm
    apply listMax_eq_some
    · exact hperm.mem_iff.mp (List.mem_cons_self _ _)
    · intro x hx
      rcases List.mem_cons.mp (hperm.mem_iff.mpr hx) with rfl | hx2
      · exact Nat.le_refl x
      · exact (List.sorted_cons.mp hsort).1 x hx2

/-- The last element of a descending-sorted permutation of l is the minimum
of l. -/
theorem getLast_sorted_desc_eq_listMin {L l : List Nat}
    (hsort : L.Sorted (fun a b => b ≤ a)) (hperm : L.Perm l) :
    L.getLast? = listMin l := by
  rw [List.getLast?_eq_head?_reverse]
  have hsortrev : L.reverse.Sorted (fun a b => a ≤ b) := by
    unfold List.Sorted at *
    rw [List.pairwise_reverse]
    exact hsort
  have hpermrev : L.reverse.Perm l := (List.reverse_perm L).trans hperm
  rcases hL : L.reverse with _ | ⟨h, t⟩
  · have : l = [] := by
      rw [hL] at hpermrev
      exact hpermrev.nil_eq.symm
    rw [this]
    rfl
  · rw [hL] at hsortrev hpermrev
    rw [List.head?_cons]
    symm
    apply listMin_eq_some
    · exact hpermrev.mem_iff.mp (List.mem_cons_self _ _)
    · intro x hx
      rcases List.mem_cons.mp (hpermrev.mem_iff.mpr hx) with rfl | hx2
      · exact Nat.le_refl x
      · exact (List.sorted_cons.mp hsortrev).1 x hx2

/-- Claim C8: unparseable login-history entries are dropped and processing
continues; "Total logins" is the number of successfully parsed entries (not
the raw length), the most recent login is the date of the maximum parsed
timestamp, and the first login is the date of the minimum parsed
timestamp. -/
theorem C8_login_history (history : List (Option Nat)) :
    totalLogins history = history.countP (fun e => e.isSome) ∧
    recentLoginDate history = (listMax (formatted_logins history)).map dateOf ∧
    firstLoginDate history = (listMin (formatted_logins history)).map dateOf := by
  refine ⟨?_, ?_, ?_⟩
  · unfold totalLogins formatted_logins
    induction history with
    | nil => rfl
    | cons x rest ih =>
      rcases x with _ | v <;>
        simp [List.filterMap_cons, List.countP_cons, ih]
  · unfold recentLoginDate sortedLogins
    rw [head_sorted_desc_eq_listMax
      (List.sorted_insertionSort _ (formatted_logins history))
      (List.perm_insertionSort _ (formatted_logins history))]
  · unfold firstLoginDate sortedLogins
    rw [getLast_sorted_desc_eq_listMin
      (List.sorted_insertionSort _ (formatted_logins history))
      (List.perm_insertionSort _ (formatted_logins history))]

/-! ## Claim C10: the dropdown label encode/decode round trip -/

/-- The first five characters of the delimiter " (ID: ". -/
def sep5 : List Char := [' ', '(', 'I', 'D', ':']

/-- The Boolean prefix test agrees with the prefix relation. -/
theorem isPrefixOf_eq_true_iff (l1 l2 : List Char) : l1.isPrefixOf l2 = true ↔ l1 <+: l2 := by
  induction l1 generalizing l2 with
  | nil => simp [List.isPrefixOf]
  | cons a l1 ih =>
    cases l2 with
    | nil => simp [List.isPrefixOf]
    | cons b l2 => simp [List.isPrefixOf, List.cons_prefix_cons, ih]

/-- The delimiter occurs at the front of any list starting with it. -/
theorem hasSepID_sep_append (t : List Char) : hasSepID (sepID ++ t) = true := rfl

/-- splitID on a list that does not start with the delimiter prepends the
head character to the first piece. -/
theorem splitID_cons_not_sep (c : Char) (rest : List Char)
    (h : sepID.isPrefixOf (c :: rest) = false) :
    splitID (c :: rest)
      = match splitID rest with | [] => [[c]] | p :: ps => (c :: p) :: ps := by
  apply splitID.eq_3
  intro rest1 hc hrest
  subst hc
  subst hrest
  rw [show sepID.isPrefixOf (' ' :: '(' :: 'I' :: 'D' :: ':' :: ' ' :: rest1) = true from by
    simp [sepID, List.isPrefixOf]] at h
  exact Bool.noConfusion h

/-- hasSepID on a list that does not start with the delimiter recurses on
the tail. -/
theorem hasSepID_cons_not_sep (c : Char) (rest : List Char)
    (h : sepID.isPrefixOf (c :: rest) = false) :
    hasSepID (c :: rest) = hasSepID rest := by
  apply hasSepID.eq_3
  intro rest1 hc hrest
  subst hc
  subst hrest
  rw [show sepID.isPrefixOf (' ' :: '(' :: 'I' :: 'D' :: ':' :: ' ' :: rest1) = true from by
    simp [sepID, List.isPrefixOf]] at h
  exact Bool.noConfusion h

/-- A delimiter-free list does not start with the delimiter. -/
theorem hasSepID_false_head (c : Char) (rest : List Char)
    (h : hasSepID (c :: rest) = false) : sepID.isPrefixOf (c :: rest) = false := by
  cases hp : sepID.isPrefixOf (c :: rest)
  · rfl
  · exfalso
    rcases (isPrefixOf_eq_true_iff _ _).mp hp with ⟨t, ht⟩
    rw [← ht, hasSepID_sep_append] at h
    exact Bool.noConfusion h

/-- A delimiter-free list has a delimiter-free tail. -/
theorem hasSepID_false_tail (c : Char) (rest : List Char)
    (h : hasSepID (c :: rest) = false) : hasSepID rest = false := by
  have hp := hasSepID_false_head c rest h
  rw [hasSepID_cons_not_sep c rest hp] at h
  exact h

/-- splitID of a delimiter-free list is that single piece. -/
theorem splitID_no_sep (B : List Char) (h : hasSepID B = false) : splitID B = [B] := by
  induction B with
  | nil => rfl
  | cons c rest ih =>
    rw [splitID_cons_not_sep c rest (hasSepID_false_head c rest h),
      ih (hasSepID_false_tail c rest h)]

/-- Prefix testing ignores anything appended past the prefix length. -/
theorem isPrefixOf_append_left {p l : List Char} (X : List Char) (h : p.length ≤ l.length) :
    p.isPrefixOf (l ++ X) = p.isPrefixOf l := by
  cases hp : p.isPrefixOf l
  · cases hq : p.isPrefixOf (l ++ X)
    · rfl
    · exfalso
      have h2 : p = (l ++ X).take p.length :=
        List.prefix_iff_eq_take.mp ((isPrefixOf_eq_true_iff _ _).mp hq)
      rw [List.take_append_of_le_length h] at h2
      rw [(isPrefixOf_eq_true_iff _ _).mpr (List.prefix_iff_eq_take.mpr h2)] at hp
      exact Bool.noConfusion hp
  · have h2 : p <+: l ++ X :=
      ((isPrefixOf_eq_true_iff _ _).mp hp).trans (List.prefix_append l X)
    rw [(isPrefixOf_eq_true_iff _ _).mpr h2]

/-- The main split lemma: when the delimiter cannot occur before or straddle
the intended position, splitID breaks the label exactly there. -/
theorem splitID_append_sep (A B : List Char) (h : hasSepID (A ++ sep5) = false) :
    splitID (A ++ (sepID ++ B)) = A :: splitID B := by
  induction A with
  | nil => exact splitID.eq_2 B
  | cons c A2 ih =>
    have hlen : sepID.length ≤ ((c :: A2) ++ sep5).length := by
      simp [sepID, sep5]
    have hp : sepID.isPrefixOf ((c :: A2) ++ sep5) = false :=
      hasSepID_false_head c (A2 ++ sep5) h
    have hp2 : sepID.isPrefixOf ((c :: A2) ++ (sepID ++ B)) = false := by
      rw [show (c :: A2) ++ (sepID ++ B) = ((c :: A2) ++ sep5) ++ (' ' :: B) from by
        rw [List.append_assoc]
        rfl]
      rw [isPrefixOf_append_left (' ' :: B) hlen]
      exact hp
    rw [show (c :: A2) ++ (sepID ++ B) = c :: (A2 ++ (sepID ++ B)) from rfl,
      splitID_cons_not_sep c (A2 ++ (sepID ++ B)) hp2,
      ih (hasSepID_false_tail c (A2 ++ sep5) h)]

/-- Appending the closing parenthesis cannot create a delimiter occurrence. -/
theorem hasSepID_append_close (B : List Char) (h : hasSepID B = false) :
    hasSepID (B ++ [')']) = false := by
  induction B with
  | nil => rfl
  | cons c rest ih =>
    have hp := hasSepID_false_head c rest h
    have ht := hasSepID_false_tail c rest h
    have hp2 : sepID.isPrefixOf ((c :: rest) ++ [')']) = false := by
      cases hq : sepID.isPrefixOf ((c :: rest) ++ [')'])
      · rfl
      · exfalso
        rcases (isPrefixOf_eq_true_iff _ _).mp hq with ⟨t, ht2⟩
        rcases List.eq_nil_or_concat t with rfl | ⟨t2, x, rfl⟩
        · rw [List.append_nil] at ht2
          have hlast : ((c :: rest) ++ [')']).getLast? = some ')' := List.getLast?_concat _
          rw [← ht2] at hlast
          exact absurd hlast (by decide)
        · rw [List.concat_eq_append, ← List.append_assoc] at ht2
          obtain ⟨h2, _⟩ := List.append_inj' ht2 rfl
          rw [(isPrefixOf_eq_true_iff _ _).mpr ⟨t2, h2⟩] at hp
          exact Bool.noConfusion hp
    rw [show (c :: rest) ++ [')'] = c :: (rest ++ [')']) from rfl,
      hasSepID_cons_not_sep c (rest ++ [')']) hp2, ih ht]

/-- Counterexample to claim C10 as stated: the title "(ID:" does not contain
the delimiter " (ID: ", yet the delimiter occurrence formed across the
" - " separator and the title makes the split break early, and decoding
returns "(ID: X" instead of the chat id "X". -/
theorem C10_counterexample :
    hasSepID ("(ID:".toList) = false ∧
    selected_chat_id
        (chat_option_label ("2024-01-01 00:00".toList) ("(ID:".toList) ("X".toList))
      ≠ "X".toList := by
  constructor
  · decide
  · decide

/-- Claim C10 (amended): building the label
"updated_at - title (ID: chat_id)" and decoding by splitting on " (ID: "
and dropping the final character recovers chat_id exactly, provided the
delimiter occurs nowhere in "updated_at - title" followed by " (ID:" (which
rules out occurrences inside the prefix and occurrences straddling into the
template's own delimiter) and the chat id itself does not contain the
delimiter.  The title-only precondition of the original claim is not
sufficient. -/
theorem C10_label_roundtrip (dstr title chatId : List Char)
    (hA : hasSepID ((dstr ++ [' ', '-', ' '] ++ title) ++ sep5) = false)
    (hc : hasSepID chatId = false) :
    selected_chat_id (chat_option_label dstr title chatId) = chatId := by
  unfold selected_chat_id chat_option_label
  have hB : hasSepID (chatId ++ [')']) = false := hasSepID_append_close chatId hc
  have hsplit : splitID ((dstr ++ [' ', '-', ' '] ++ title) ++ (sepID ++ (chatId ++ [')'])))
      = (dstr ++ [' ', '-', ' '] ++ title) :: splitID (chatId ++ [')']) :=
    splitID_append_sep _ _ hA
  rw [splitID_no_sep _ hB] at hsplit
  rw [show dstr ++ [' ', '-', ' '] ++ title ++ sepID ++ chatId ++ [')']
      = (dstr ++ [' ', '-', ' '] ++ title) ++ (sepID ++ (chatId ++ [')'])) from by
    simp [List.append_assoc]]
  rw [hsplit]
  show (chatId ++ [')']).dropLast = chatId
  exact List.dropLast_concat

/-- Witness for the amended C10 round trip on a concrete clean label. -/
theorem C10_witness :
    selected_chat_id
        (chat_option_label ("2024-01-01 00:00".toList) ("Brake issue".toList)
          ("abc123".toList))
      = "abc123".toList :=
  C10_label_roundtrip ("2024-01-01 00:00".toList) ("Brake issue".toList)
    ("abc123".toList) (by decide) (by decide)

end PilotStats
